import Mathlib

/-!
# dVFS storage node: storage engine and content-type mapper

A shallow embedding of `pkg/utils/mime.go`, `pkg/storage/storage.go` and the
id-addressed handlers of `pkg/api/resources/files/handler.go`, followed by the
properties established about them.

Go strings are byte sequences, so a string is a list of byte values here.  The
filesystem is explicit state (`Disk`) threaded through every operation, and the
failures the operating system can report are chosen by an environment
(`Faults`).
-/

namespace DVFS

/-! ## Strings -/

/-- A Go `string`: a sequence of bytes (not necessarily valid UTF-8). -/
abbrev Str := List Nat

/-- The bytes of an ASCII string literal of the source. -/
def str (s : String) : Str := s.toList.map Char.toNat

/-- Go `strings.HasPrefix(s, p)`. -/
def HasPrefix : Str → Str → Bool
  | _, [] => true
  | [], _ :: _ => false
  | c :: cs, p :: ps => c == p && HasPrefix cs ps

/-- Go `strings.Contains(s, substr)`: `substr` starts at some offset of `s`. -/
def Contains : Str → Str → Bool
  | [], substr => HasPrefix [] substr
  | c :: cs, substr => HasPrefix (c :: cs) substr || Contains cs substr

/-- Worker of `ReplaceAll`: `skip` counts the bytes of the current match that
are still to be consumed. -/
def replaceAllAux (old new : Str) : Nat → Str → Str
  | _, [] => []
  | skip + 1, _ :: cs => replaceAllAux old new skip cs
  | 0, c :: cs =>
    if HasPrefix (c :: cs) old then new ++ replaceAllAux old new (old.length - 1) cs
    else c :: replaceAllAux old new 0 cs

/-- Go `strings.ReplaceAll(s, old, new)` for a non-empty `old`: the
non-overlapping occurrences of `old`, found left to right, become `new`. -/
def ReplaceAll (s old new : Str) : Str := replaceAllAux old new 0 s

/-- Go `strings.Split(s, sep)` for a one-byte separator. -/
def Split : Str → Nat → List Str
  | [], _ => [[]]
  | c :: cs, sep =>
    if c = sep then [] :: Split cs sep
    else match Split cs sep with
      | [] => [[c]]
      | h :: t => (c :: h) :: t

/-! ## `path/filepath` (Unix) -/

/-- Go `os.IsPathSeparator` on Unix: the byte `/`. -/
def IsPathSeparator (c : Nat) : Bool := c == 47

/-- Backward scan of `filepath.Ext`: `rev` is the part of the path still to be
visited, last byte first, and `acc` the bytes already passed. -/
def extScan : Str → Str → Str
  | [], _ => []
  | c :: rev, acc =>
    if IsPathSeparator c then []
    else if c = 46 then c :: acc
    else extScan rev (c :: acc)

/-- Go `filepath.Ext(path)`: the suffix beginning at the final dot of the final
path element, empty when that element has no dot. -/
def Ext (path : Str) : Str := extScan path.reverse []

/-- Go `strings.Join(elems, sep)`. -/
def stringsJoin (sep : Str) : List Str → Str
  | [] => []
  | [e] => e
  | e :: es => e ++ sep ++ stringsJoin sep es

/-- The element loop of `filepath.Clean`: `out` holds the elements kept so far,
last one first.  Empty and "." elements are dropped; ".." removes the last
element kept when there is one that is not itself "..", is dropped at the root,
and is kept otherwise. -/
def cleanElems (rooted : Bool) : List Str → List Str → List Str
  | [], out => out
  | e :: es, out =>
    if e = [] ∨ e = str "." then cleanElems rooted es out
    else if e = str ".." then
      match out with
      | top :: kept =>
        if top = str ".." then cleanElems rooted es (e :: out)
        else cleanElems rooted es kept
      | [] => if rooted then cleanElems rooted es [] else cleanElems rooted es [e]
    else cleanElems rooted es (e :: out)

/-- Go `filepath.Clean(path)` on Unix: the shortest path equivalent to `path`
by lexical processing. -/
def Clean (path : Str) : Str :=
  match path with
  | [] => str "."
  | c :: _ =>
    let rooted := IsPathSeparator c
    let out := stringsJoin (str "/") (cleanElems rooted (Split path 47) []).reverse
    if rooted then str "/" ++ out
    else if out = [] then str "."
    else out

/-- Go `filepath.Join(dir, elems...)` on Unix: the elements from the first
non-empty one on, joined by the separator, and the result cleaned; empty when
every element is empty. -/
def Join (dir : Str) (elems : List Str) : Str :=
  match (dir :: elems).dropWhile (fun e => e == []) with
  | [] => []
  | e :: es => Clean (stringsJoin (str "/") (e :: es))

/-! ## `pkg/utils/mime.go` -/

/-- The table `mimeToExt` of `GetExtensionFromContentType`. -/
def mimeToExt : List (Str × Str) :=
  [ (str "text/plain", str ".txt"),
    (str "text/html", str ".html"),
    (str "text/css", str ".css"),
    (str "application/javascript", str ".js"),
    (str "application/json", str ".json"),
    (str "application/xml", str ".xml"),
    (str "application/pdf", str ".pdf"),
    (str "application/zip", str ".zip"),
    (str "application/x-tar", str ".tar"),
    (str "application/gzip", str ".gz"),
    (str "image/png", str ".png"),
    (str "image/jpeg", str ".jpg"),
    (str "image/gif", str ".gif"),
    (str "image/svg+xml", str ".svg"),
    (str "video/mp4", str ".mp4"),
    (str "audio/mpeg", str ".mp3"),
    (str "audio/wav", str ".wav"),
    (str "video/x-msvideo", str ".avi"),
    (str "video/quicktime", str ".mov"),
    (str "application/msword", str ".doc"),
    (str "application/vnd.openxmlformats-officedocument.wordprocessingml.document", str ".docx"),
    (str "application/vnd.ms-excel", str ".xls"),
    (str "application/vnd.openxmlformats-officedocument.spreadsheetml.sheet", str ".xlsx"),
    (str "application/vnd.ms-powerpoint", str ".ppt"),
    (str "application/vnd.openxmlformats-officedocument.presentationml.presentation", str ".pptx") ]

/-- Go map lookup `m[key]` with its `exists` flag. -/
def mapLookup (key : Str) : List (Str × Str) → Option Str
  | [] => none
  | (k, v) :: rest => if key = k then some v else mapLookup key rest

/-- `GetExtensionFromContentType`: file extension for a MIME type. -/
def GetExtensionFromContentType (contentType : Str) : Str :=
  let contentType := (Split contentType 59).headD []
  match mapLookup contentType mimeToExt with
  | some ext => ext
  | none => str ".bin"

/-- `SanitizeFileName`: removes dangerous characters from a file name. -/
def SanitizeFileName (filename : Str) : Str :=
  let filename := ReplaceAll filename (str "/") (str "_")
  let filename := ReplaceAll filename (str "\\") (str "_")
  let filename := ReplaceAll filename (str "..") (str "_")
  let filename := ReplaceAll filename (str "~") (str "_")
  if filename.length > 255 then filename.take 255 else filename

/-! ## `encoding/json` and `unicode/utf8` -/

/-- Byte range test `lo <= b <= hi`. -/
def inRange (lo hi b : Nat) : Bool := decide (lo ≤ b) && decide (b ≤ hi)

/-- Go `utf8.DecodeRuneInString`: the width of the well-formed UTF-8 encoding
at the head of the string, `none` where Go returns `(RuneError, 1)` (or the
string is empty). -/
def decodeRuneSize : Str → Option Nat
  | [] => none
  | b0 :: rest =>
    if b0 < 0x80 then some 1
    else if b0 < 0xC2 then none
    else if b0 < 0xE0 then
      match rest with
      | b1 :: _ => if inRange 0x80 0xBF b1 then some 2 else none
      | _ => none
    else if b0 < 0xF0 then
      match rest with
      | b1 :: b2 :: _ =>
        if inRange (if b0 = 0xE0 then 0xA0 else 0x80) (if b0 = 0xED then 0x9F else 0xBF) b1
            && inRange 0x80 0xBF b2 then some 3
        else none
      | _ => none
    else if b0 < 0xF5 then
      match rest with
      | b1 :: b2 :: b3 :: _ =>
        if inRange (if b0 = 0xF0 then 0x90 else 0x80) (if b0 = 0xF4 then 0x8F else 0xBF) b1
            && inRange 0x80 0xBF b2 && inRange 0x80 0xBF b3 then some 4
        else none
      | _ => none
    else none

/-- Worker of `jsonString`: `keep` counts the remaining bytes of the rune
being copied. -/
def jsonStringAux : Nat → Str → Str
  | _, [] => []
  | keep + 1, b :: bs => b :: jsonStringAux keep bs
  | 0, b :: bs =>
    match decodeRuneSize (b :: bs) with
    | some n => b :: jsonStringAux (n - 1) bs
    | none => [0xEF, 0xBF, 0xBD] ++ jsonStringAux 0 bs

/-- What `json.Decoder.Decode` reads back for a string field that
`json.Encoder.Encode` wrote: `encoding/json` coerces a string to valid UTF-8 on
output, every byte that does not start a well-formed encoding becoming U+FFFD
(bytes EF BF BD); escapes are undone by the decoder. -/
def jsonString (s : Str) : Str := jsonStringAux 0 s

/-! ## `pkg/models/file.go` -/

/-- `FileMetadata`: metadata for a stored file; a `time.Time` is its instant. -/
structure FileMetadata where
  ID : Str
  OriginalName : Str
  ContentType : Str
  Size : Int
  Extension : Str
  CreatedAt : Nat
  UpdatedAt : Nat
  deriving DecidableEq, Repr

/-- The value `Decode` produces from the JSON document `Encode` writes for `m`. -/
def jsonFileMetadata (m : FileMetadata) : FileMetadata :=
  { ID := jsonString m.ID,
    OriginalName := jsonString m.OriginalName,
    ContentType := jsonString m.ContentType,
    Size := m.Size,
    Extension := jsonString m.Extension,
    CreatedAt := m.CreatedAt,
    UpdatedAt := m.UpdatedAt }

/-! ## `github.com/google/uuid` -/

/-- One lower-case hexadecimal digit. -/
def hexDigit (n : Nat) : Nat := if n % 16 < 10 then 48 + n % 16 else 87 + n % 16

/-- Go `hex.Encode`. -/
def hexEncode : Str → Str
  | [] => []
  | b :: bs => hexDigit (b / 16) :: hexDigit b :: hexEncode bs

/-- Go `uuid.New()`: sixteen bytes from the random source, with the version
(4) and variant (10) bits set. -/
def uuidNew (rand : Nat → Nat) : Str :=
  (List.range 16).map fun i =>
    if i = 6 then rand i % 16 + 0x40
    else if i = 8 then rand i % 64 + 0x80
    else rand i % 256

/-- Go `UUID.String()`: the form xxxxxxxx-xxxx-xxxx-xxxx-xxxxxxxxxxxx. -/
def uuidString (u : Str) : Str :=
  hexEncode (u.take 4) ++ str "-" ++ hexEncode ((u.drop 4).take 2) ++ str "-" ++
  hexEncode ((u.drop 6).take 2) ++ str "-" ++ hexEncode ((u.drop 8).take 2) ++ str "-" ++
  hexEncode (u.drop 10)

/-! ## The filesystem -/

/-- Error numbers the operating system reports. -/
inductive Errno
  | ENOENT | EACCES | EMFILE | ENOSPC | EINVAL | ENAMETOOLONG | ELOOP
  deriving DecidableEq, Repr

/-- Go `syscall.Errno.Error()`. -/
def Errno.Error : Errno → Str
  | .ENOENT => str "no such file or directory"
  | .EACCES => str "permission denied"
  | .EMFILE => str "too many open files"
  | .ENOSPC => str "no space left on device"
  | .EINVAL => str "invalid argument"
  | .ENAMETOOLONG => str "file name too long"
  | .ELOOP => str "too many levels of symbolic links"

/-- A Go `error` value: an `*fs.PathError`, or an error known by its text
(`fmt.Errorf`, `encoding/json`, `io`). -/
inductive GoError
  | pathError (op path : Str) (errno : Errno)
  | errorString (text : Str)
  deriving DecidableEq, Repr

/-- The method `Error()`. -/
def GoError.Error : GoError → Str
  | .pathError op path errno => op ++ str " " ++ path ++ str ": " ++ errno.Error
  | .errorString text => text

deriving instance DecidableEq for Except

/-- Go `os.IsNotExist(err)`; `none` is the nil error. -/
def IsNotExist : Option GoError → Bool
  | some (.pathError _ _ errno) => errno == Errno.ENOENT
  | _ => false

/-- The text `%w` and `%v` print for an error. -/
def errorText : Option GoError → Str
  | some err => err.Error
  | none => str "<nil>"

/-- Go `fmt.Errorf(format + "%w", err)` and `fmt.Errorf(format + "%s", s)`. -/
def Errorf (msg : Str) (arg : Str) : GoError := .errorString (msg ++ arg)

/-- Content of a file of the metadata directory. -/
inductive MetaFile
  /-- A complete JSON document; `m` is the value `Decode` reads from it. -/
  | document (m : FileMetadata)
  /-- Content on which `Decode` fails with this text (empty, truncated, malformed). -/
  | undecodable (err : Str)
  deriving DecidableEq, Repr

/-- The files below the base directory: `blobs` are the regular files directly
in it, `metas` the files of its `metadata` subdirectory, both by file name.  A
key is the name of a directory entry, so a name the engine builds addresses
its key as long as it holds no path separator, as the names `Store` builds and
the names built from an id the handlers extract do (`extractFileID` splits the
URL path at the separators). -/
structure Disk where
  blobs : Str → Option Str
  metas : Str → Option MetaFile

/-- A file the engine addresses: `basePath/name` or `basePath/metadata/name`. -/
inductive Path
  | blob (name : Str)
  | metadata (name : Str)
  deriving DecidableEq, Repr

/-- The failures the operating system injects: for each system call and file,
the error it fails with, if any.  `written` is the number of bytes that reach
the file when a write fails. -/
structure Faults where
  create : Path → Option Errno
  write : Path → Option Errno
  written : Path → Nat
  openFile : Path → Option Errno
  read : Path → Option Errno
  remove : Path → Option Errno
  stat : Path → Option Errno

/-- A filesystem whose operations fail only for lack of the file. -/
def noFaults : Faults :=
  { create := fun _ => none, write := fun _ => none, written := fun _ => 0,
    openFile := fun _ => none, read := fun _ => none, remove := fun _ => none,
    stat := fun _ => none }

/-- The disk with blob `name` set to `v` (`none`: no such file). -/
def Disk.setBlob (disk : Disk) (name : Str) (v : Option Str) : Disk :=
  { disk with blobs := fun k => if k = name then v else disk.blobs k }

/-- The disk with metadata file `name` set to `v` (`none`: no such file). -/
def Disk.setMeta (disk : Disk) (name : Str) (v : Option MetaFile) : Disk :=
  { disk with metas := fun k => if k = name then v else disk.metas k }

/-- Go `os.Create(path)` for a blob: creates the file or truncates it. -/
def osCreateBlob (env : Faults) (disk : Disk) (name path : Str) : Option GoError × Disk :=
  match env.create (.blob name) with
  | some e => (some (.pathError (str "open") path e), disk)
  | none => (none, disk.setBlob name (some []))

/-- Go `file.Write(content)` on a freshly created blob. -/
def fileWriteBlob (env : Faults) (disk : Disk) (name path content : Str) :
    Option GoError × Disk :=
  match env.write (.blob name) with
  | some e =>
    (some (.pathError (str "write") path e),
      disk.setBlob name (some (content.take (env.written (.blob name)))))
  | none => (none, disk.setBlob name (some content))

/-- Go `os.Remove(path)` for a blob. -/
def osRemoveBlob (env : Faults) (disk : Disk) (name path : Str) : Option GoError × Disk :=
  match env.remove (.blob name) with
  | some e => (some (.pathError (str "remove") path e), disk)
  | none =>
    match disk.blobs name with
    | none => (some (.pathError (str "remove") path .ENOENT), disk)
    | some _ => (none, disk.setBlob name none)

/-- Go `os.Remove(path)` for a metadata file. -/
def osRemoveMeta (env : Faults) (disk : Disk) (name path : Str) : Option GoError × Disk :=
  match env.remove (.metadata name) with
  | some e => (some (.pathError (str "remove") path e), disk)
  | none =>
    match disk.metas name with
    | none => (some (.pathError (str "remove") path .ENOENT), disk)
    | some _ => (none, disk.setMeta name none)

/-- Go `os.ReadFile(path)` for a blob. -/
def osReadFile (env : Faults) (disk : Disk) (name path : Str) : Except GoError Str :=
  match env.openFile (.blob name) with
  | some e => .error (.pathError (str "open") path e)
  | none =>
    match disk.blobs name with
    | none => .error (.pathError (str "open") path .ENOENT)
    | some content =>
      match env.read (.blob name) with
      | some e => .error (.pathError (str "read") path e)
      | none => .ok content

/-- Go `os.Stat(path)` for a blob: the error, `none` when the file is there. -/
def osStat (env : Faults) (disk : Disk) (name path : Str) : Option GoError :=
  match env.stat (.blob name) with
  | some e => some (.pathError (str "stat") path e)
  | none =>
    match disk.blobs name with
    | none => some (.pathError (str "stat") path .ENOENT)
    | some _ => none

/-! ## `pkg/storage/storage.go` -/

/-- `FileStorage`: local file operations with metadata. -/
structure FileStorage where
  basePath : Str

/-- `getMetadataPath`: the path of the metadata file. -/
def FileStorage.getMetadataPath (fs : FileStorage) (fileID : Str) : Str :=
  Join fs.basePath [str "metadata", fileID ++ str ".json"]

/-- `saveMetadata`: saves file metadata to disk.  `os.Create` leaves an empty
file, which `Encode` fills with the document; a failing `Encode` leaves the
file with what was written of it. -/
def FileStorage.saveMetadata (fs : FileStorage) (env : Faults) (disk : Disk)
    (metadata : FileMetadata) : Option GoError × Disk :=
  let metadataPath := fs.getMetadataPath metadata.ID
  let name := metadata.ID ++ str ".json"
  match env.create (.metadata name) with
  | some e => (some (.pathError (str "open") metadataPath e), disk)
  | none =>
    let disk := disk.setMeta name (some (.undecodable (str "EOF")))
    match env.write (.metadata name) with
    | some e =>
      (some (.pathError (str "write") metadataPath e),
        if env.written (.metadata name) = 0 then disk
        else disk.setMeta name (some (.undecodable (str "unexpected EOF"))))
    | none => (none, disk.setMeta name (some (.document (jsonFileMetadata metadata))))

/-- `loadMetadata`: loads file metadata from disk. -/
def FileStorage.loadMetadata (fs : FileStorage) (env : Faults) (disk : Disk)
    (fileID : Str) : Except GoError FileMetadata :=
  let metadataPath := fs.getMetadataPath fileID
  let name := fileID ++ str ".json"
  match env.openFile (.metadata name) with
  | some e => .error (.pathError (str "open") metadataPath e)
  | none =>
    match disk.metas name with
    | none => .error (.pathError (str "open") metadataPath .ENOENT)
    | some file =>
      match env.read (.metadata name) with
      | some e => .error (.pathError (str "read") metadataPath e)
      | none =>
        match file with
        | .undecodable err => .error (.errorString err)
        | .document metadata => .ok metadata

/-- The extension `Store` determines (storage.go lines 43 to 51). -/
def FileStorage.storeExtension (originalName contentType : Str) : Str :=
  if contentType ≠ [] then GetExtensionFromContentType contentType
  else if originalName ≠ [] then Ext originalName
  else str ".bin"

/-- `Store`: saves a file with metadata and returns the file information.
`rand` is the random source of `uuid.New()` and `now` the value of
`time.Now()`. -/
def FileStorage.Store (fs : FileStorage) (env : Faults) (disk : Disk) (rand : Nat → Nat)
    (now : Nat) (content originalName contentType : Str) :
    Except GoError FileMetadata × Disk :=
  let fileID := uuidString (uuidNew rand)
  let extension := FileStorage.storeExtension originalName contentType
  let filename := fileID ++ extension
  let filePath := Join fs.basePath [filename]
  match osCreateBlob env disk filename filePath with
  | (some err, disk) => (.error (Errorf (str "failed to create file: ") err.Error), disk)
  | (none, disk) =>
    match fileWriteBlob env disk filename filePath content with
    | (some err, disk) =>
      let disk := (osRemoveBlob env disk filename filePath).2
      (.error (Errorf (str "failed to write file content: ") err.Error), disk)
    | (none, disk) =>
      let metadata : FileMetadata :=
        { ID := fileID,
          OriginalName := SanitizeFileName originalName,
          ContentType := contentType,
          Size := (content.length : Int),
          Extension := extension,
          CreatedAt := now,
          UpdatedAt := now }
      match fs.saveMetadata env disk metadata with
      | (some err, disk) =>
        let disk := (osRemoveBlob env disk filename filePath).2
        (.error (Errorf (str "failed to save metadata: ") err.Error), disk)
      | (none, disk) => (.ok metadata, disk)

/-- `Retrieve`: file content and metadata for the given file ID. -/
def FileStorage.Retrieve (fs : FileStorage) (env : Faults) (disk : Disk) (fileID : Str) :
    Except GoError (Str × FileMetadata) :=
  match fs.loadMetadata env disk fileID with
  | .error _ => .error (Errorf (str "metadata not found: ") fileID)
  | .ok metadata =>
    let filename := fileID ++ metadata.Extension
    let filePath := Join fs.basePath [filename]
    match osReadFile env disk filename filePath with
    | .error err =>
      if IsNotExist (some err) then .error (Errorf (str "file not found: ") fileID)
      else .error (Errorf (str "failed to read file: ") err.Error)
    | .ok content => .ok (content, metadata)

/-- `GetMetadata`: only the metadata for the given file ID. -/
def FileStorage.GetMetadata (fs : FileStorage) (env : Faults) (disk : Disk) (fileID : Str) :
    Except GoError FileMetadata :=
  fs.loadMetadata env disk fileID

/-- `Delete`: removes a file and its metadata by ID. -/
def FileStorage.Delete (fs : FileStorage) (env : Faults) (disk : Disk) (fileID : Str) :
    Option GoError × Disk :=
  match fs.loadMetadata env disk fileID with
  | .error _ => (some (Errorf (str "metadata not found: ") fileID), disk)
  | .ok metadata =>
    let filename := fileID ++ metadata.Extension
    let filePath := Join fs.basePath [filename]
    let (err, disk) := osRemoveBlob env disk filename filePath
    if err ≠ none && !IsNotExist err then
      (some (Errorf (str "failed to delete file: ") (errorText err)), disk)
    else
      let metadataPath := fs.getMetadataPath fileID
      let (err, disk) := osRemoveMeta env disk (fileID ++ str ".json") metadataPath
      if err ≠ none && !IsNotExist err then
        (some (Errorf (str "failed to delete metadata: ") (errorText err)), disk)
      else (none, disk)

/-- `Exists`: checks if a file exists. -/
def FileStorage.Exists (fs : FileStorage) (env : Faults) (disk : Disk) (fileID : Str) : Bool :=
  match fs.loadMetadata env disk fileID with
  | .error _ => false
  | .ok metadata =>
    let filename := fileID ++ metadata.Extension
    let filePath := Join fs.basePath [filename]
    !IsNotExist (osStat env disk filename filePath)

/-! ## `pkg/api/resources/files/handler.go` -/

/-- The status of `GetFile` (GET /api/v1/files/{id}) for the extracted id. -/
def Handler.GetFile (fs : FileStorage) (env : Faults) (disk : Disk) (method fileID : Str) :
    Nat :=
  if method ≠ str "GET" then 405
  else if fileID = [] then 400
  else
    match fs.Retrieve env disk fileID with
    | .error err => if Contains err.Error (str "not found") then 404 else 500
    | .ok _ => 200

/-- The status of `GetFileInfo` (GET /api/v1/files/{id}/info) for the extracted id. -/
def Handler.GetFileInfo (fs : FileStorage) (env : Faults) (disk : Disk)
    (method fileID : Str) : Nat :=
  if method ≠ str "GET" then 405
  else if fileID = [] then 400
  else
    match fs.GetMetadata env disk fileID with
    | .error err => if Contains err.Error (str "not found") then 404 else 500
    | .ok _ => 200

/-- The status of `DeleteFile` (DELETE /api/v1/files/{id}) for the extracted
id, and the disk it leaves. -/
def Handler.DeleteFile (fs : FileStorage) (env : Faults) (disk : Disk)
    (method fileID : Str) : Nat × Disk :=
  if method ≠ str "DELETE" then (405, disk)
  else if fileID = [] then (400, disk)
  else
    match fs.Delete env disk fileID with
    | (some err, disk) => (if Contains err.Error (str "not found") then 404 else 500, disk)
    | (none, disk) => (204, disk)

/-! ## Concrete values used in the examples -/

/-- The default storage directory of `config.Load`. -/
def exampleStorage : FileStorage := { basePath := str "/tmp/storage_data" }

/-- A disk without files. -/
def emptyDisk : Disk := { blobs := fun _ => none, metas := fun _ => none }

/-- A random source that yields zero bytes. -/
def zeroRand : Nat → Nat := fun _ => 0

/-- The file name of the blob `Store` writes, the id followed by the extension
(storage.go line 54). -/
def FileStorage.storeFilename (rand : Nat → Nat) (originalName contentType : Str) : Str :=
  uuidString (uuidNew rand) ++ FileStorage.storeExtension originalName contentType

/-- The metadata `Store` builds (storage.go lines 73 to 82). -/
def FileStorage.storeMetadata (rand : Nat → Nat) (now : Nat)
    (content originalName contentType : Str) : FileMetadata :=
  { ID := uuidString (uuidNew rand),
    OriginalName := SanitizeFileName originalName,
    ContentType := contentType,
    Size := (content.length : Int),
    Extension := FileStorage.storeExtension originalName contentType,
    CreatedAt := now,
    UpdatedAt := now }

/-- A name whose suffix is not valid UTF-8: the bytes of "a." followed by FF. -/
def nonUTF8Name : Str := [97, 46, 255]

/-- A name of 256 bytes, valid UTF-8: 254 times "a", then U+00E9 (bytes C3 A9). -/
def longName : Str := List.replicate 254 97 ++ [0xC3, 0xA9]

/-- The identifier `uuid.New()` renders from `zeroRand`. -/
def zeroID : Str := str "00000000-0000-4000-8000-000000000000"

/-- A filesystem where every write to a metadata file fails for lack of space. -/
def encodeFails : Faults :=
  { noFaults with
    write := fun p => match p with
      | .metadata _ => some .ENOSPC
      | .blob _ => none }

/-- A filesystem whose metadata directory is not writable. -/
def metadataDirUnwritable : Faults :=
  { noFaults with
    create := fun p => match p with
      | .metadata _ => some .EACCES
      | .blob _ => none }

/-- A filesystem where `stat` on a blob is denied. -/
def statDenied : Faults :=
  { noFaults with
    stat := fun p => match p with
      | .blob _ => some .EACCES
      | .metadata _ => none }

/-- A disk holding the metadata document of `zeroID`, and no blob at all. -/
def metadataOnlyDisk : Disk :=
  { blobs := fun _ => none,
    metas := fun k =>
      if k = zeroID ++ str ".json" then
        some (.document
          { ID := zeroID, OriginalName := str "photo.png", ContentType := str "image/png",
            Size := 3, Extension := str ".png", CreatedAt := 0, UpdatedAt := 0 })
      else none }

/-- A filesystem where removing a blob is denied. -/
def blobRemoveDenied : Faults :=
  { noFaults with
    remove := fun p => match p with
      | .blob _ => some .EACCES
      | .metadata _ => none }

/-- A filesystem whose directories became read-only after the blob was
written: creating a metadata file and removing a blob are both denied. -/
def rollbackDenied : Faults :=
  { noFaults with
    create := fun p => match p with
      | .metadata _ => some .EACCES
      | .blob _ => none
    remove := fun p => match p with
      | .blob _ => some .EACCES
      | .metadata _ => none }

/-- The limit of 255 bytes on a file name (NAME_MAX on Linux): the error of a
system call that resolves the name of `p`, if the name is too long. -/
def nameTooLong (p : Path) : Option Errno :=
  match p with
  | .blob name => if name.length > 255 then some .ENAMETOOLONG else none
  | .metadata name => if name.length > 255 then some .ENAMETOOLONG else none

/-- A filesystem whose only failure is the limit on the length of a file name. -/
def nameMax : Faults :=
  { noFaults with
    create := nameTooLong, openFile := nameTooLong, remove := nameTooLong,
    stat := nameTooLong }

/-- A name of 87 bytes whose suffix is not valid UTF-8: "a." and 85 times FF. -/
def longSuffixName : Str := [97, 46] ++ List.replicate 85 255

/-! # Properties -/


/-! ## Facts about the string functions -/

theorem contains_singleton (a : Nat) (s : Str) : Contains s [a] = true ↔ a ∈ s := by
  induction s with
  | nil => simp [Contains, HasPrefix]
  | cons c cs ih =>
    simp only [Contains, HasPrefix, Bool.or_eq_true, ih, List.mem_cons, Bool.and_true,
      beq_iff_eq]
    constructor
    · rintro (h | h)
      · exact Or.inl h.symm
      · exact Or.inr h
    · rintro (h | h)
      · exact Or.inl h.symm
      · exact Or.inr h

theorem mem_replaceAllAux (old new : Str) (x : Nat) (s : Str) :
    ∀ k : Nat, x ∈ replaceAllAux old new k s → x ∈ s ∨ x ∈ new := by
  induction s with
  | nil => intro k h; cases k <;> simp [replaceAllAux] at h
  | cons c cs ih =>
    intro k h
    cases k with
    | succ k =>
      simp only [replaceAllAux] at h
      rcases ih k h with h1 | h1
      · exact Or.inl (List.mem_cons_of_mem _ h1)
      · exact Or.inr h1
    | zero =>
      simp only [replaceAllAux] at h
      split at h
      · rcases List.mem_append.mp h with h1 | h1
        · exact Or.inr h1
        · rcases ih _ h1 with h2 | h2
          · exact Or.inl (List.mem_cons_of_mem _ h2)
          · exact Or.inr h2
      · rcases List.mem_cons.mp h with h1 | h1
        · exact Or.inl (h1 ▸ List.mem_cons_self _ _)
        · rcases ih _ h1 with h2 | h2
          · exact Or.inl (List.mem_cons_of_mem _ h2)
          · exact Or.inr h2

theorem mem_ReplaceAll (s old new : Str) (x : Nat) (h : x ∈ ReplaceAll s old new) :
    x ∈ s ∨ x ∈ new :=
  mem_replaceAllAux old new x s 0 h

/-- Replacing a one-byte pattern is a bytewise map. -/
theorem ReplaceAll_byte (a b : Nat) (s : Str) :
    ReplaceAll s [a] [b] = s.map (fun c => if c = a then b else c) := by
  unfold ReplaceAll
  induction s with
  | nil => simp [replaceAllAux]
  | cons c cs ih =>
    simp only [replaceAllAux, HasPrefix, Bool.and_true, beq_iff_eq, List.length_singleton,
      Nat.sub_self, List.map_cons]
    split
    · simp [ih]
    · simp [ih]

theorem not_mem_ReplaceAll_byte (a b : Nat) (hab : a ≠ b) (s : Str) :
    a ∉ ReplaceAll s [a] [b] := by
  rw [ReplaceAll_byte]
  intro h
  rcases List.mem_map.mp h with ⟨c, _, hc⟩
  split at hc
  · exact hab hc.symm
  · rename_i hne; exact hne hc

/-- The string has two adjacent dots somewhere. -/
theorem contains_dotdot_cons (c : Nat) (cs : Str) :
    Contains (c :: cs) [46, 46] = (c == 46 && cs.head? == some 46 || Contains cs [46, 46]) := by
  cases cs with
  | nil => simp [Contains, HasPrefix]
  | cons d ds => simp [Contains, HasPrefix]

theorem replaceAllAux_dotdot (s : Str) :
    Contains (replaceAllAux [46, 46] [95] 0 s) [46, 46] = false ∧
    Contains (replaceAllAux [46, 46] [95] 1 s) [46, 46] = false ∧
    (s.head? ≠ some 46 → (replaceAllAux [46, 46] [95] 0 s).head? ≠ some 46) := by
  induction s with
  | nil => simp [replaceAllAux, Contains, HasPrefix]
  | cons c cs ih =>
    obtain ⟨ih0, ih1, ihh⟩ := ih
    refine ⟨?_, ?_, ?_⟩
    · simp only [replaceAllAux]
      split
      · rw [List.singleton_append, contains_dotdot_cons]
        simp [ih1]
      · rename_i hp
        rw [contains_dotdot_cons, ih0]
        simp only [Bool.or_false, Bool.and_eq_false_imp, beq_iff_eq]
        intro hc
        subst hc
        have hcs : cs.head? ≠ some 46 := by
          intro hh
          apply hp
          cases cs with
          | nil => simp at hh
          | cons d ds =>
            simp only [List.head?_cons, Option.some.injEq] at hh
            subst hh
            simp [HasPrefix]
        have := ihh hcs
        simpa using this
    · simpa [replaceAllAux] using ih0
    · intro hc
      simp only [List.head?_cons, ne_eq, Option.some.injEq] at hc
      simp only [replaceAllAux]
      split
      · simp
      · simpa using hc

theorem contains_dotdot_map (f : Nat → Nat) (hf : ∀ c, f c = 46 → c = 46) (s : Str)
    (h : Contains s [46, 46] = false) : Contains (s.map f) [46, 46] = false := by
  induction s with
  | nil => simp [Contains, HasPrefix]
  | cons c cs ih =>
    rw [contains_dotdot_cons] at h
    simp only [Bool.or_eq_false_iff, Bool.and_eq_false_imp, beq_iff_eq] at h
    rw [List.map_cons, contains_dotdot_cons, ih h.2]
    simp only [Bool.or_false, Bool.and_eq_false_imp, beq_iff_eq]
    intro hc
    have h1 := h.1 (hf c hc)
    cases cs with
    | nil => simp
    | cons d ds =>
      simp only [List.head?_cons, beq_eq_false_iff_ne, ne_eq, Option.some.injEq] at h1
      simp only [List.map_cons, List.head?_cons, beq_eq_false_iff_ne, ne_eq, Option.some.injEq]
      exact fun hd => h1 (hf d hd)

theorem contains_dotdot_take (n : Nat) (s : Str) (h : Contains s [46, 46] = false) :
    Contains (s.take n) [46, 46] = false := by
  induction s generalizing n with
  | nil => simpa using h
  | cons c cs ih =>
    cases n with
    | zero => simp [Contains, HasPrefix]
    | succ n =>
      rw [contains_dotdot_cons] at h
      simp only [Bool.or_eq_false_iff, Bool.and_eq_false_imp, beq_iff_eq] at h
      rw [List.take_succ_cons, contains_dotdot_cons, ih n h.2]
      simp only [Bool.or_false, Bool.and_eq_false_imp, beq_iff_eq]
      intro hc
      have h1 := h.1 hc
      cases cs with
      | nil => simp
      | cons d ds =>
        cases n with
        | zero => simp
        | succ m => simpa using h1

/-! ## Sanitization -/

/-- C6: for every input the sanitized name contains no slash, no backslash, no
tilde and no two adjacent dots, and is at most 255 bytes long. -/
theorem SanitizeFileName_postcondition (s : Str) :
    Contains (SanitizeFileName s) (str "/") = false ∧
    Contains (SanitizeFileName s) (str "\\") = false ∧
    Contains (SanitizeFileName s) (str "~") = false ∧
    Contains (SanitizeFileName s) (str "..") = false ∧
    (SanitizeFileName s).length ≤ 255 := by
  have e1 : str "/" = [47] := by decide
  have e2 : str "\\" = [92] := by decide
  have e3 : str ".." = [46, 46] := by decide
  have e4 : str "~" = [126] := by decide
  have e5 : str "_" = [95] := by decide
  -- the four replacement stages
  have key : ∀ t : Str,
      t = ReplaceAll (ReplaceAll (ReplaceAll (ReplaceAll s [47] [95]) [92] [95]) [46, 46] [95])
        [126] [95] →
      47 ∉ t ∧ 92 ∉ t ∧ 126 ∉ t ∧ Contains t [46, 46] = false := by
    intro t ht
    subst ht
    refine ⟨?_, ?_, ?_, ?_⟩
    · intro h
      rcases mem_ReplaceAll _ _ _ _ h with h | h
      · rcases mem_ReplaceAll _ _ _ _ h with h | h
        · rcases mem_ReplaceAll _ _ _ _ h with h | h
          · exact not_mem_ReplaceAll_byte 47 95 (by decide) s h
          · simp at h
        · simp at h
      · simp at h
    · intro h
      rcases mem_ReplaceAll _ _ _ _ h with h | h
      · rcases mem_ReplaceAll _ _ _ _ h with h | h
        · exact not_mem_ReplaceAll_byte 92 95 (by decide) _ h
        · simp at h
      · simp at h
    · exact not_mem_ReplaceAll_byte 126 95 (by decide) _
    · rw [ReplaceAll_byte 126 95]
      apply contains_dotdot_map
      · intro c hc
        split at hc
        · simp at hc
        · exact hc
      · exact (replaceAllAux_dotdot _).1
  have hmem : ∀ (a : Nat) (t : Str), a ∉ t → a ∉ t.take 255 :=
    fun a t h h1 => h (List.mem_of_mem_take h1)
  simp only [SanitizeFileName, e1, e2, e3, e4, e5]
  obtain ⟨k1, k2, k3, k4⟩ := key _ rfl
  split
  · refine ⟨?_, ?_, ?_, contains_dotdot_take 255 _ k4, ?_⟩
    · rw [← Bool.not_eq_true, contains_singleton]; exact hmem _ _ k1
    · rw [← Bool.not_eq_true, contains_singleton]; exact hmem _ _ k2
    · rw [← Bool.not_eq_true, contains_singleton]; exact hmem _ _ k3
    · simp [List.length_take]
  · rename_i hlen
    refine ⟨?_, ?_, ?_, k4, by omega⟩
    · rw [← Bool.not_eq_true, contains_singleton]; exact k1
    · rw [← Bool.not_eq_true, contains_singleton]; exact k2
    · rw [← Bool.not_eq_true, contains_singleton]; exact k3

/-! ## Identifiers, extensions and the JSON coercion -/

theorem hexDigit_bounds (n : Nat) : 48 ≤ hexDigit n ∧ hexDigit n < 128 := by
  unfold hexDigit
  have := Nat.mod_lt n (show 16 > 0 by decide)
  split <;> omega

theorem hexEncode_bounds (s : Str) : ∀ b ∈ hexEncode s, 48 ≤ b ∧ b < 128 := by
  induction s with
  | nil => simp [hexEncode]
  | cons c cs ih =>
    intro b hb
    simp only [hexEncode, List.mem_cons] at hb
    rcases hb with h | h | h
    · exact h ▸ hexDigit_bounds _
    · exact h ▸ hexDigit_bounds _
    · exact ih b h

theorem hexEncode_length (s : Str) : (hexEncode s).length = 2 * s.length := by
  induction s with
  | nil => rfl
  | cons c cs ih => simp [hexEncode, ih]; omega

/-- Every byte of a rendered identifier is a hexadecimal digit or a dash. -/
theorem uuidString_bounds (u : Str) : ∀ b ∈ uuidString u, b ≠ 47 ∧ b < 128 := by
  intro b hb
  have hd : str "-" = [45] := by decide
  simp only [uuidString, hd, List.mem_append, List.mem_singleton] at hb
  rcases hb with (((((((h | h) | h) | h) | h) | h) | h) | h) | h
  all_goals first
    | omega
    | exact ⟨by have hh := hexEncode_bounds _ b h; omega,
        by have hh := hexEncode_bounds _ b h; omega⟩

theorem uuidNew_length (rand : Nat → Nat) : (uuidNew rand).length = 16 := by
  simp [uuidNew]

theorem uuidString_length (u : Str) (hu : u.length = 16) : (uuidString u).length = 36 := by
  have hd : str "-" = [45] := by decide
  simp only [uuidString, hd, List.length_append, hexEncode_length, List.length_take,
    List.length_drop, List.length_singleton, hu]
  rfl

theorem extScan_no_separator (rev acc : Str) (hacc : 47 ∉ acc) : 47 ∉ extScan rev acc := by
  induction rev generalizing acc with
  | nil => simp [extScan]
  | cons c cs ih =>
    simp only [extScan]
    split
    · simp
    · rename_i hsep
      have hc : c ≠ 47 := by simpa [IsPathSeparator] using hsep
      split
      · intro h
        rcases List.mem_cons.mp h with h1 | h1
        · exact hc h1.symm
        · exact hacc h1
      · apply ih
        intro h
        rcases List.mem_cons.mp h with h1 | h1
        · exact hc h1.symm
        · exact hacc h1

theorem Ext_no_separator (path : Str) : 47 ∉ Ext path :=
  extScan_no_separator _ _ (by simp)

theorem mapLookup_mem (key : Str) (table : List (Str × Str)) (v : Str)
    (h : mapLookup key table = some v) : (key, v) ∈ table := by
  induction table with
  | nil => simp [mapLookup] at h
  | cons p rest ih =>
    obtain ⟨k, w⟩ := p
    simp only [mapLookup] at h
    split at h
    · rename_i hk
      simp only [Option.some.injEq] at h
      subst hk; subst h
      exact List.mem_cons_self _ _
    · exact List.mem_cons_of_mem _ (ih h)

/-- Every extension of the table is a dot followed by ASCII letters or digits. -/
theorem mimeToExt_values :
    ∀ p ∈ mimeToExt, p.2 ≠ [] ∧ ∀ b ∈ p.2, b ≠ 47 ∧ b < 128 := by
  decide

theorem GetExtensionFromContentType_bytes (contentType : Str) :
    GetExtensionFromContentType contentType ≠ [] ∧
    ∀ b ∈ GetExtensionFromContentType contentType, b ≠ 47 ∧ b < 128 := by
  unfold GetExtensionFromContentType
  simp only
  split
  · rename_i ext h
    exact mimeToExt_values _ (mapLookup_mem _ _ _ h)
  · decide

theorem storeExtension_no_separator (originalName contentType : Str) :
    47 ∉ FileStorage.storeExtension originalName contentType := by
  unfold FileStorage.storeExtension
  split
  · intro h
    exact ((GetExtensionFromContentType_bytes contentType).2 _ h).1 rfl
  · split
    · exact Ext_no_separator _
    · decide

theorem jsonStringAux_ascii (s : Str) (h : ∀ b ∈ s, b < 128) : jsonStringAux 0 s = s := by
  induction s with
  | nil => rfl
  | cons c cs ih =>
    have hc : c < 128 := h c (List.mem_cons_self _ _)
    have hcs : ∀ b ∈ cs, b < 128 := fun b hb => h b (List.mem_cons_of_mem _ hb)
    simp only [jsonStringAux, decodeRuneSize]
    rw [if_pos (by omega)]
    simp [ih hcs]

/-- An ASCII string is written to and read back from JSON unchanged. -/
theorem jsonString_ascii (s : Str) (h : ∀ b ∈ s, b < 128) : jsonString s = s :=
  jsonStringAux_ascii s h

theorem jsonString_uuidString (u : Str) : jsonString (uuidString u) = uuidString u :=
  jsonString_ascii _ fun b hb => (uuidString_bounds u b hb).2

/-! ## The final dot of the final path element -/

theorem extScan_final_dot (r : Str) (h46 : 46 ∉ r) (h47 : 47 ∉ r) (rest acc : Str) :
    extScan (r ++ 46 :: rest) acc = 46 :: (r.reverse ++ acc) := by
  induction r generalizing acc with
  | nil => simp [extScan, IsPathSeparator]
  | cons c cs ih =>
    have hc46 : c ≠ 46 := fun h => h46 (h ▸ List.mem_cons_self _ _)
    have hc47 : c ≠ 47 := fun h => h47 (h ▸ List.mem_cons_self _ _)
    have h1 : 46 ∉ cs := fun h => h46 (List.mem_cons_of_mem _ h)
    have h2 : 47 ∉ cs := fun h => h47 (List.mem_cons_of_mem _ h)
    simp only [List.cons_append, extScan, IsPathSeparator, beq_iff_eq, hc47, hc46,
      if_false, Bool.false_eq_true, List.append_eq]
    rw [ih h1 h2]
    simp

/-- `Ext` returns the text from the final dot when no separator follows it. -/
theorem Ext_final_dot (pre suf : Str) (h46 : 46 ∉ suf) (h47 : 47 ∉ suf) :
    Ext (pre ++ 46 :: suf) = 46 :: suf := by
  unfold Ext
  have h := extScan_final_dot suf.reverse (by simpa using h46) (by simpa using h47)
    pre.reverse []
  simpa using h

theorem extScan_nonempty (r : Str) (h47 : 47 ∉ r) (rest acc : Str) :
    extScan (r ++ 46 :: rest) acc ≠ [] := by
  induction r generalizing acc with
  | nil => simp [extScan, IsPathSeparator]
  | cons c cs ih =>
    have hc47 : c ≠ 47 := fun h => h47 (h ▸ List.mem_cons_self _ _)
    have h2 : 47 ∉ cs := fun h => h47 (List.mem_cons_of_mem _ h)
    simp only [List.cons_append, extScan, IsPathSeparator, beq_iff_eq, hc47, if_false,
      List.append_eq]
    split
    · simp
    · exact ih h2 _

theorem extScan_empty (rev acc : Str) (h : ∀ r rest, rev = r ++ 46 :: rest → 47 ∈ r) :
    extScan rev acc = [] := by
  induction rev generalizing acc with
  | nil => rfl
  | cons c cs ih =>
    simp only [extScan]
    split
    · rfl
    · rename_i hsep
      have hc47 : c ≠ 47 := by simpa [IsPathSeparator] using hsep
      split
      · rename_i hc
        subst hc
        have := h [] cs rfl
        simp at this
      · apply ih
        intro r rest hr
        have := h (c :: r) rest (by simp [hr])
        rcases List.mem_cons.mp this with h1 | h1
        · exact absurd h1.symm hc47
        · exact h1

/-- `Ext` is empty exactly when the final path element has no dot: every dot
of the path is followed by a separator. -/
theorem Ext_eq_nil_iff (path : Str) :
    Ext path = [] ↔ ∀ pre suf, path = pre ++ 46 :: suf → 47 ∈ suf := by
  constructor
  · intro h pre suf hp
    by_contra hns
    subst hp
    apply extScan_nonempty suf.reverse (by simpa using hns) pre.reverse []
    unfold Ext at h
    simpa using h
  · intro h
    apply extScan_empty
    intro r rest hr
    have hp : path = rest.reverse ++ 46 :: r.reverse := by
      have := congrArg List.reverse hr
      simpa using this
    simpa using h _ _ hp

/-! ## What `Store` does -/

/-- A successful `Store`: no step failed, the result is the metadata built from
the arguments, and the disk gained the blob and the metadata document. -/
theorem Store_ok_inv (fs : FileStorage) (env : Faults) (disk d : Disk) (rand : Nat → Nat)
    (now : Nat) (content originalName contentType : Str) (m : FileMetadata)
    (h : fs.Store env disk rand now content originalName contentType = (.ok m, d)) :
    m = FileStorage.storeMetadata rand now content originalName contentType ∧
    (∀ k, d.blobs k =
      if k = FileStorage.storeFilename rand originalName contentType then some content
      else disk.blobs k) ∧
    (∀ k, d.metas k =
      if k = uuidString (uuidNew rand) ++ str ".json" then
        some (.document (jsonFileMetadata m))
      else disk.metas k) := by
  simp only [FileStorage.Store, osCreateBlob, fileWriteBlob, FileStorage.saveMetadata] at h
  cases h1 : env.create
      (.blob (uuidString (uuidNew rand) ++ FileStorage.storeExtension originalName contentType))
  case some e => simp [h1] at h
  cases h2 : env.write
      (.blob (uuidString (uuidNew rand) ++ FileStorage.storeExtension originalName contentType))
  case some e => simp [h1, h2] at h
  cases h3 : env.create (.metadata (uuidString (uuidNew rand) ++ str ".json"))
  case some e => simp [h1, h2, h3] at h
  cases h4 : env.write (.metadata (uuidString (uuidNew rand) ++ str ".json"))
  case some e => simp [h1, h2, h3, h4] at h
  simp only [h1, h2, h3, h4, Prod.mk.injEq, Except.ok.injEq] at h
  obtain ⟨hm, hd⟩ := h
  subst hd
  refine ⟨hm.symm, ?_, ?_⟩
  · intro k
    simp only [Disk.setMeta, Disk.setBlob, FileStorage.storeFilename]
    split <;> rfl
  · intro k
    subst hm
    simp only [Disk.setMeta, Disk.setBlob]
    split <;> rfl

/-- On a filesystem without failures `Store` succeeds. -/
theorem Store_noFaults (fs : FileStorage) (disk : Disk) (rand : Nat → Nat)
    (now : Nat) (content originalName contentType : Str) :
    (fs.Store noFaults disk rand now content originalName contentType).1 =
      .ok (FileStorage.storeMetadata rand now content originalName contentType) := by
  rfl

/-! ## Round trip -/

/-- Round trip for a stable extension: on a filesystem without
failures, when the resolved extension is unchanged by the JSON coercion (as
every valid UTF-8 extension is), `Retrieve` of the stored id returns the stored
bytes and the metadata as the JSON document holds it. -/
theorem Store_Retrieve_of_stable_extension (fs : FileStorage) (disk : Disk)
    (rand : Nat → Nat) (now : Nat) (content originalName contentType : Str)
    (hext : jsonString (FileStorage.storeExtension originalName contentType) =
      FileStorage.storeExtension originalName contentType) :
    fs.Retrieve noFaults
        (fs.Store noFaults disk rand now content originalName contentType).2
        (uuidString (uuidNew rand)) =
      .ok (content,
        jsonFileMetadata
          (FileStorage.storeMetadata rand now content originalName contentType)) := by
  have hS : fs.Store noFaults disk rand now content originalName contentType =
      (.ok (FileStorage.storeMetadata rand now content originalName contentType),
        (fs.Store noFaults disk rand now content originalName contentType).2) :=
    Prod.ext (Store_noFaults fs disk rand now content originalName contentType) rfl
  generalize (fs.Store noFaults disk rand now content originalName contentType).2 = d at hS ⊢
  obtain ⟨-, hb, hm⟩ := Store_ok_inv fs noFaults disk d rand now content originalName
    contentType _ hS
  simp only [FileStorage.Retrieve, FileStorage.loadMetadata, noFaults, hm, if_true,
    osReadFile, hb, jsonFileMetadata, FileStorage.storeMetadata, hext,
    FileStorage.storeFilename]

set_option maxRecDepth 20000 in
/-- C1: the round trip breaks on the code.  Storing under the name "a." + FF
with no content type succeeds, and `Retrieve` of the returned id then fails with
"file not found", the blob lying under the raw suffix while the metadata
document holds the suffix coerced to U+FFFD.  Storing under a 256-byte UTF-8 name
succeeds too, and `Retrieve` returns an original name that differs from the one
`Store` returned (the truncation cut a two-byte character). -/
theorem Store_Retrieve_breaks_outside_utf8 :
    ((exampleStorage.Store noFaults emptyDisk zeroRand 0 [1, 2, 3] nonUTF8Name []).1 =
        .ok { ID := zeroID, OriginalName := nonUTF8Name, ContentType := [], Size := 3,
              Extension := [46, 255], CreatedAt := 0, UpdatedAt := 0 } ∧
      exampleStorage.Retrieve noFaults
          (exampleStorage.Store noFaults emptyDisk zeroRand 0 [1, 2, 3] nonUTF8Name []).2 zeroID =
        .error (.errorString (str "file not found: 00000000-0000-4000-8000-000000000000"))) ∧
    ((exampleStorage.Store noFaults emptyDisk zeroRand 0 [1, 2, 3] longName
          (str "image/png")).1 =
        .ok { ID := zeroID, OriginalName := List.replicate 254 97 ++ [0xC3],
              ContentType := str "image/png", Size := 3, Extension := str ".png",
              CreatedAt := 0, UpdatedAt := 0 } ∧
      exampleStorage.Retrieve noFaults
          (exampleStorage.Store noFaults emptyDisk zeroRand 0 [1, 2, 3] longName
            (str "image/png")).2 zeroID =
        .ok ([1, 2, 3],
          { ID := zeroID, OriginalName := List.replicate 254 97 ++ [0xEF, 0xBF, 0xBD],
            ContentType := str "image/png", Size := 3, Extension := str ".png",
            CreatedAt := 0, UpdatedAt := 0 })) := by
  decide

/-- The scenario of the specification: "photo.png" of type image/png with three
bytes is stored with extension ".png" and size 3, and read back unchanged. -/
theorem Store_Retrieve_photo :
    (exampleStorage.Store noFaults emptyDisk zeroRand 0 [1, 2, 3] (str "photo.png")
        (str "image/png")).1 =
      .ok { ID := zeroID, OriginalName := str "photo.png", ContentType := str "image/png",
            Size := 3, Extension := str ".png", CreatedAt := 0, UpdatedAt := 0 } ∧
    exampleStorage.Retrieve noFaults
        (exampleStorage.Store noFaults emptyDisk zeroRand 0 [1, 2, 3] (str "photo.png")
          (str "image/png")).2 zeroID =
      .ok ([1, 2, 3],
        { ID := zeroID, OriginalName := str "photo.png", ContentType := str "image/png",
          Size := 3, Extension := str ".png", CreatedAt := 0, UpdatedAt := 0 }) := by
  decide

/-- After the round trip the id, the size and (for a stable extension) the
extension are those `Store` returned; the original name and the content type
are the returned ones after the JSON coercion. -/
theorem jsonFileMetadata_storeMetadata (rand : Nat → Nat) (now : Nat)
    (content originalName contentType : Str) :
    (jsonFileMetadata (FileStorage.storeMetadata rand now content originalName contentType)).ID =
      (FileStorage.storeMetadata rand now content originalName contentType).ID ∧
    (jsonFileMetadata (FileStorage.storeMetadata rand now content originalName contentType)).Size =
      (content.length : Int) ∧
    (jsonFileMetadata
        (FileStorage.storeMetadata rand now content originalName contentType)).OriginalName =
      jsonString (SanitizeFileName originalName) ∧
    (jsonFileMetadata
        (FileStorage.storeMetadata rand now content originalName contentType)).ContentType =
      jsonString contentType := by
  simp [jsonFileMetadata, FileStorage.storeMetadata, jsonString_uuidString]

/-! ## Extension resolution -/

/-- C2: the extension in the metadata `Store` returns is
`GetExtensionFromContentType` of the content type when that is non-empty,
`filepath.Ext` of the name (the text from the final dot of the final path
element, empty when there is none) when the content type is empty and the name
is not, and ".bin" when both are empty. -/
theorem Store_extension_precedence (fs : FileStorage) (env : Faults) (disk d : Disk)
    (rand : Nat → Nat) (now : Nat) (content originalName contentType : Str)
    (m : FileMetadata)
    (h : fs.Store env disk rand now content originalName contentType = (.ok m, d)) :
    (contentType ≠ [] → m.Extension = GetExtensionFromContentType contentType) ∧
    (contentType = [] → originalName ≠ [] →
      m.Extension = Ext originalName ∧
      (∀ pre suf, originalName = pre ++ 46 :: suf → 46 ∉ suf → 47 ∉ suf →
        m.Extension = 46 :: suf) ∧
      ((∀ pre suf, originalName = pre ++ 46 :: suf → 47 ∈ suf) → m.Extension = [])) ∧
    (contentType = [] → originalName = [] → m.Extension = str ".bin") := by
  obtain ⟨hm, -, -⟩ := Store_ok_inv fs env disk d rand now content originalName contentType m h
  subst hm
  refine ⟨?_, ?_, ?_⟩
  · intro ht
    simp [FileStorage.storeMetadata, FileStorage.storeExtension, ht]
  · intro ht hn
    have he : (FileStorage.storeMetadata rand now content originalName contentType).Extension =
        Ext originalName := by
      simp [FileStorage.storeMetadata, FileStorage.storeExtension, ht, hn]
    refine ⟨he, ?_, ?_⟩
    · intro pre suf hp h46 h47
      rw [he, hp]
      exact Ext_final_dot pre suf h46 h47
    · intro hall
      rw [he]
      exact (Ext_eq_nil_iff originalName).mpr hall
  · intro ht hn
    simp [FileStorage.storeMetadata, FileStorage.storeExtension, ht, hn]

/-- C2 at "notes.txt" stored as image/png: the content type wins. -/
theorem Store_extension_precedence_witness :
    exampleStorage.Store noFaults emptyDisk zeroRand 0 [1, 2, 3] (str "notes.txt")
        (str "image/png") =
      (.ok (FileStorage.storeMetadata zeroRand 0 [1, 2, 3] (str "notes.txt") (str "image/png")),
        (exampleStorage.Store noFaults emptyDisk zeroRand 0 [1, 2, 3] (str "notes.txt")
          (str "image/png")).2) ∧
    (FileStorage.storeMetadata zeroRand 0 [1, 2, 3] (str "notes.txt")
        (str "image/png")).Extension = str ".png" :=
  ⟨rfl,
    ((Store_extension_precedence exampleStorage noFaults emptyDisk _ zeroRand 0 [1, 2, 3]
      (str "notes.txt") (str "image/png") _ rfl).1 (by decide)).trans (by decide)⟩

/-- C8 fails on the code: "README" with an empty content type is stored with an
empty extension. -/
theorem Store_README_extension_empty :
    (exampleStorage.Store noFaults emptyDisk zeroRand 0 [1, 2, 3] (str "README") []).1 =
      .ok { ID := zeroID, OriginalName := str "README", ContentType := [], Size := 3,
            Extension := [], CreatedAt := 0, UpdatedAt := 0 } := by
  decide

/-- C8 as amended: when `Store` succeeds the extension of the returned metadata
is empty exactly when the content type is empty and the name is non-empty with
no dot in its final path element; in every other case it is non-empty. -/
theorem Store_extension_empty_iff (fs : FileStorage) (env : Faults) (disk d : Disk)
    (rand : Nat → Nat) (now : Nat) (content originalName contentType : Str)
    (m : FileMetadata)
    (h : fs.Store env disk rand now content originalName contentType = (.ok m, d)) :
    m.Extension = [] ↔
      (contentType = [] ∧ originalName ≠ [] ∧
        ∀ pre suf, originalName = pre ++ 46 :: suf → 47 ∈ suf) := by
  obtain ⟨hm, -, -⟩ := Store_ok_inv fs env disk d rand now content originalName contentType m h
  subst hm
  simp only [FileStorage.storeMetadata, FileStorage.storeExtension]
  by_cases ht : contentType = []
  · by_cases hn : originalName = []
    · subst ht; subst hn
      simp only [ne_eq, not_true_eq_false, if_false, false_and, and_false, iff_false]
      decide
    · simp only [ht, ne_eq, not_true_eq_false, if_false, hn, not_false_eq_true, if_true,
        true_and]
      exact Ext_eq_nil_iff originalName
  · simp only [ne_eq, ht, not_false_eq_true, if_true, false_and, iff_false]
    exact (GetExtensionFromContentType_bytes contentType).1

/-- The amended C8 at "archive.tar.gz" with an empty content type: the
extension ".gz" is not empty. -/
theorem Store_extension_empty_iff_witness :
    exampleStorage.Store noFaults emptyDisk zeroRand 0 [1, 2, 3] (str "archive.tar.gz") [] =
      (.ok (FileStorage.storeMetadata zeroRand 0 [1, 2, 3] (str "archive.tar.gz") []),
        (exampleStorage.Store noFaults emptyDisk zeroRand 0 [1, 2, 3] (str "archive.tar.gz")
          []).2) ∧
    ((FileStorage.storeMetadata zeroRand 0 [1, 2, 3] (str "archive.tar.gz") []).Extension = [] ↔
      (([] : Str) = [] ∧ str "archive.tar.gz" ≠ [] ∧
        ∀ pre suf, str "archive.tar.gz" = pre ++ 46 :: suf → 47 ∈ suf)) :=
  ⟨rfl, Store_extension_empty_iff exampleStorage noFaults emptyDisk _ zeroRand 0 [1, 2, 3]
    (str "archive.tar.gz") [] _ rfl⟩

/-! ## Existence -/

/-- `Exists` answers true exactly when the metadata loads and `stat` on the
blob reports no error or an error other than not-exist. -/
theorem Exists_eq_true_iff (fs : FileStorage) (env : Faults) (disk : Disk) (fileID : Str) :
    fs.Exists env disk fileID = true ↔
      ∃ m, fs.loadMetadata env disk fileID = .ok m ∧
        IsNotExist (osStat env disk (fileID ++ m.Extension)
          (Join fs.basePath [fileID ++ m.Extension])) = false := by
  unfold FileStorage.Exists
  cases hl : fs.loadMetadata env disk fileID with
  | error e => simp
  | ok m => simp

/-- Existence follows store and delete for a stable extension: on a filesystem
without failures, `Exists` of the generated id is false while the id has
no metadata record, true after `Store`, and false after `Delete`, which returns
no error. -/
theorem Exists_Store_Delete_of_stable_extension (fs : FileStorage) (disk : Disk)
    (rand : Nat → Nat) (now : Nat) (content originalName contentType : Str)
    (hfresh : disk.metas (uuidString (uuidNew rand) ++ str ".json") = none)
    (hext : jsonString (FileStorage.storeExtension originalName contentType) =
      FileStorage.storeExtension originalName contentType) :
    fs.Exists noFaults disk (uuidString (uuidNew rand)) = false ∧
    fs.Exists noFaults
      (fs.Store noFaults disk rand now content originalName contentType).2
      (uuidString (uuidNew rand)) = true ∧
    (fs.Delete noFaults
      (fs.Store noFaults disk rand now content originalName contentType).2
      (uuidString (uuidNew rand))).1 = none ∧
    fs.Exists noFaults
      (fs.Delete noFaults
        (fs.Store noFaults disk rand now content originalName contentType).2
        (uuidString (uuidNew rand))).2
      (uuidString (uuidNew rand)) = false := by
  have hS : fs.Store noFaults disk rand now content originalName contentType =
      (.ok (FileStorage.storeMetadata rand now content originalName contentType),
        (fs.Store noFaults disk rand now content originalName contentType).2) :=
    Prod.ext (Store_noFaults fs disk rand now content originalName contentType) rfl
  generalize (fs.Store noFaults disk rand now content originalName contentType).2 = d at hS ⊢
  obtain ⟨-, hb, hm⟩ := Store_ok_inv fs noFaults disk d rand now content originalName
    contentType _ hS
  refine ⟨?_, ?_, ?_, ?_⟩
  · simp [FileStorage.Exists, FileStorage.loadMetadata, noFaults, hfresh]
  · simp [FileStorage.Exists, FileStorage.loadMetadata, noFaults, hm, osStat, hb,
      jsonFileMetadata, FileStorage.storeMetadata, hext, FileStorage.storeFilename, IsNotExist]
  · simp [FileStorage.Delete, FileStorage.loadMetadata, noFaults, hm, osRemoveBlob,
      osRemoveMeta, hb, jsonFileMetadata, FileStorage.storeMetadata, hext,
      FileStorage.storeFilename, IsNotExist, Disk.setBlob, Disk.setMeta]
  · simp [FileStorage.Delete, FileStorage.loadMetadata, noFaults, hm, osRemoveBlob,
      osRemoveMeta, hb, jsonFileMetadata, FileStorage.storeMetadata, hext,
      FileStorage.storeFilename, IsNotExist, Disk.setBlob, Disk.setMeta,
      FileStorage.Exists]

/-- C3 fails on the code: after a successful `Store` under the name "a." + FF
with no content type, on a filesystem without failures, `Exists` of the
returned id is false. -/
theorem Exists_false_after_Store_outside_utf8 :
    (exampleStorage.Store noFaults emptyDisk zeroRand 0 [1, 2, 3] nonUTF8Name []).1 =
      .ok { ID := zeroID, OriginalName := nonUTF8Name, ContentType := [], Size := 3,
            Extension := [46, 255], CreatedAt := 0, UpdatedAt := 0 } ∧
    exampleStorage.Exists noFaults
      (exampleStorage.Store noFaults emptyDisk zeroRand 0 [1, 2, 3] nonUTF8Name []).2
      zeroID = false ∧
    (exampleStorage.Store noFaults emptyDisk zeroRand 0 [1, 2, 3] nonUTF8Name []).2.blobs
      (zeroID ++ [46, 255]) = some [1, 2, 3] := by
  decide

/-- C9 fails on the code: with the metadata of an id on disk and no blob at
all, `Exists` answers true when `stat` on the blob path is denied. -/
theorem Exists_true_when_stat_denied :
    metadataOnlyDisk.blobs (zeroID ++ str ".png") = none ∧
    osStat statDenied metadataOnlyDisk (zeroID ++ str ".png")
        (Join exampleStorage.basePath [zeroID ++ str ".png"]) =
      some (.pathError (str "stat")
        (str "/tmp/storage_data/00000000-0000-4000-8000-000000000000.png") .EACCES) ∧
    exampleStorage.Exists statDenied metadataOnlyDisk zeroID = true := by
  decide

/-- `Exists` is false when the metadata does not load, and when `stat` reports that the blob does not exist. -/
theorem Exists_false_of_missing (fs : FileStorage) (env : Faults) (disk : Disk)
    (fileID : Str) :
    ((∀ m, fs.loadMetadata env disk fileID ≠ .ok m) → fs.Exists env disk fileID = false) ∧
    (∀ m, fs.loadMetadata env disk fileID = .ok m → env.stat (.blob (fileID ++ m.Extension)) = none →
      disk.blobs (fileID ++ m.Extension) = none → fs.Exists env disk fileID = false) := by
  constructor
  · intro h
    unfold FileStorage.Exists
    cases hl : fs.loadMetadata env disk fileID with
    | error e => rfl
    | ok m => exact absurd hl (h m)
  · intro m hl hs hb
    simp [FileStorage.Exists, hl, osStat, hs, hb, IsNotExist]

/-! ## Failure of `Store` -/

/-- C4 fails on the code as stated: with the directories read-only after the
blob was written, creating the metadata file fails, `Store` returns an error,
the removal of the blob fails too, its error is discarded, and the blob stays. -/
theorem Store_rollback_blob_stays_when_remove_fails :
    (exampleStorage.Store rollbackDenied emptyDisk zeroRand 0 [1, 2, 3] (str "photo.png")
        (str "image/png")).1 =
      .error (.errorString (str ("failed to save metadata: open /tmp/storage_data/metadata/" ++
        "00000000-0000-4000-8000-000000000000.json: permission denied"))) ∧
    emptyDisk.blobs (zeroID ++ str ".png") = none ∧
    (exampleStorage.Store rollbackDenied emptyDisk zeroRand 0 [1, 2, 3] (str "photo.png")
        (str "image/png")).2.blobs (zeroID ++ str ".png") = some [1, 2, 3] := by
  decide

/-- C4 as amended: when the blob is created and written but persisting the
metadata fails (creating the metadata file fails, or writing the document into
it does), `Store` returns an error; no blob remains under the generated id and
extension when the removal of the blob succeeds, and the blob stays, with the
content written, when that removal fails, its error being discarded. -/
theorem Store_rollback_on_metadata_failure (fs : FileStorage) (env : Faults) (disk : Disk)
    (rand : Nat → Nat) (now : Nat) (content originalName contentType : Str)
    (hcreate : env.create
      (.blob (FileStorage.storeFilename rand originalName contentType)) = none)
    (hwrite : env.write
      (.blob (FileStorage.storeFilename rand originalName contentType)) = none)
    (hsave : env.create (.metadata (uuidString (uuidNew rand) ++ str ".json")) ≠ none ∨
      env.write (.metadata (uuidString (uuidNew rand) ++ str ".json")) ≠ none) :
    (fs.saveMetadata env
        ((disk.setBlob (FileStorage.storeFilename rand originalName contentType)
          (some [])).setBlob (FileStorage.storeFilename rand originalName contentType)
          (some content))
        (FileStorage.storeMetadata rand now content originalName contentType)).1 ≠ none ∧
    (∃ err, (fs.Store env disk rand now content originalName contentType).1 = .error err) ∧
    (env.remove (.blob (FileStorage.storeFilename rand originalName contentType)) = none →
      (fs.Store env disk rand now content originalName contentType).2.blobs
        (FileStorage.storeFilename rand originalName contentType) = none) ∧
    (∀ e, env.remove (.blob (FileStorage.storeFilename rand originalName contentType)) =
        some e →
      (fs.Store env disk rand now content originalName contentType).2.blobs
        (FileStorage.storeFilename rand originalName contentType) = some content) := by
  simp only [FileStorage.storeFilename] at hcreate hwrite
  simp only [FileStorage.Store, osCreateBlob, fileWriteBlob, FileStorage.saveMetadata,
    FileStorage.storeFilename, FileStorage.storeMetadata, hcreate, hwrite]
  cases hr : env.remove
      (.blob (uuidString (uuidNew rand) ++ FileStorage.storeExtension originalName contentType))
  case none =>
    cases h3 : env.create (.metadata (uuidString (uuidNew rand) ++ str ".json")) with
    | some e =>
      simp [osRemoveBlob, hr, Disk.setBlob]
    | none =>
      cases h4 : env.write (.metadata (uuidString (uuidNew rand) ++ str ".json")) with
      | some e =>
        by_cases hk : env.written (.metadata (uuidString (uuidNew rand) ++ str ".json")) = 0
        · simp [osRemoveBlob, hr, Disk.setBlob, Disk.setMeta, hk]
        · simp [osRemoveBlob, hr, Disk.setBlob, Disk.setMeta, hk]
      | none => simp [h3, h4] at hsave
  case some er =>
    cases h3 : env.create (.metadata (uuidString (uuidNew rand) ++ str ".json")) with
    | some e =>
      simp [osRemoveBlob, hr, Disk.setBlob]
    | none =>
      cases h4 : env.write (.metadata (uuidString (uuidNew rand) ++ str ".json")) with
      | some e =>
        by_cases hk : env.written (.metadata (uuidString (uuidNew rand) ++ str ".json")) = 0
        · simp [osRemoveBlob, hr, Disk.setBlob, Disk.setMeta, hk]
        · simp [osRemoveBlob, hr, Disk.setBlob, Disk.setMeta, hk]
      | none => simp [h3, h4] at hsave

/-- The amended C4 with an unwritable metadata directory: `Store` returns an
error and, the removal succeeding, no blob remains. -/
theorem Store_rollback_on_metadata_failure_witness :
    (∃ err, (exampleStorage.Store metadataDirUnwritable emptyDisk zeroRand 0 [1, 2, 3]
        (str "photo.png") (str "image/png")).1 = .error err) ∧
    (exampleStorage.Store metadataDirUnwritable emptyDisk zeroRand 0 [1, 2, 3]
        (str "photo.png") (str "image/png")).2.blobs
      (FileStorage.storeFilename zeroRand (str "photo.png") (str "image/png")) = none :=
  have h := Store_rollback_on_metadata_failure exampleStorage metadataDirUnwritable emptyDisk
    zeroRand 0 [1, 2, 3] (str "photo.png") (str "image/png") rfl rfl (Or.inl (by decide))
  ⟨h.2.1, h.2.2.1 rfl⟩

/-- No partial state after the first three steps: when `Store` fails at creating the
blob, at writing it or at creating the metadata file (writes to the metadata
file do not fail), the removal of the blob is not made to fail and no blob lay
under the generated name before, the disk is left as it was. -/
theorem Store_error_restores_disk (fs : FileStorage) (env : Faults) (disk d : Disk)
    (rand : Nat → Nat) (now : Nat) (content originalName contentType : Str) (err : GoError)
    (hencode : env.write (.metadata (uuidString (uuidNew rand) ++ str ".json")) = none)
    (hremove : env.remove
      (.blob (FileStorage.storeFilename rand originalName contentType)) = none)
    (hfresh : disk.blobs (FileStorage.storeFilename rand originalName contentType) = none)
    (h : fs.Store env disk rand now content originalName contentType = (.error err, d)) :
    (∀ k, d.blobs k = disk.blobs k) ∧ (∀ k, d.metas k = disk.metas k) := by
  simp only [FileStorage.storeFilename] at hremove hfresh
  simp only [FileStorage.Store, osCreateBlob, fileWriteBlob, FileStorage.saveMetadata,
    hencode] at h
  cases h1 : env.create
      (.blob (uuidString (uuidNew rand) ++ FileStorage.storeExtension originalName contentType))
  case some e =>
    simp only [h1, Prod.mk.injEq] at h
    rw [← h.2]
    exact ⟨fun _ => rfl, fun _ => rfl⟩
  cases h2 : env.write
      (.blob (uuidString (uuidNew rand) ++ FileStorage.storeExtension originalName contentType))
  case some e =>
    simp only [h1, h2, osRemoveBlob, hremove, Disk.setBlob, if_true, Prod.mk.injEq] at h
    rw [← h.2]
    refine ⟨fun k => ?_, fun _ => rfl⟩
    show (if k = _ then none else if k = _ then _ else if k = _ then _ else disk.blobs k) = _
    split
    · rename_i hk; rw [hk, hfresh]
    · rename_i hk; simp [hk]
  cases h3 : env.create (.metadata (uuidString (uuidNew rand) ++ str ".json"))
  case some e =>
    simp only [h1, h2, h3, osRemoveBlob, hremove, Disk.setBlob, if_true, Prod.mk.injEq] at h
    rw [← h.2]
    refine ⟨fun k => ?_, fun _ => rfl⟩
    show (if k = _ then none else if k = _ then _ else if k = _ then _ else disk.blobs k) = _
    split
    · rename_i hk; rw [hk, hfresh]
    · rename_i hk; simp [hk]
  simp [h1, h2, h3] at h

/-- C10 fails on the code: when the metadata file is created but encoding the
document into it fails, `Store` returns an error and removes the blob, and the
metadata file it created stays on the disk, which had none before. -/
theorem Store_leaves_metadata_file_when_encode_fails :
    (exampleStorage.Store encodeFails emptyDisk zeroRand 0 [1, 2, 3] (str "photo.png")
        (str "image/png")).1 =
      .error (.errorString (str ("failed to save metadata: write /tmp/storage_data/metadata/" ++
        "00000000-0000-4000-8000-000000000000.json: no space left on device"))) ∧
    (exampleStorage.Store encodeFails emptyDisk zeroRand 0 [1, 2, 3] (str "photo.png")
        (str "image/png")).2.blobs (zeroID ++ str ".png") = none ∧
    emptyDisk.metas (zeroID ++ str ".json") = none ∧
    (exampleStorage.Store encodeFails emptyDisk zeroRand 0 [1, 2, 3] (str "photo.png")
        (str "image/png")).2.metas (zeroID ++ str ".json") =
      some (.undecodable (str "EOF")) := by
  decide

/-! ## Not found at the HTTP boundary -/

theorem HasPrefix_append (s p t : Str) (h : HasPrefix s p = true) :
    HasPrefix (s ++ t) p = true := by
  induction s generalizing p with
  | nil =>
    cases p with
    | nil => cases t <;> rfl
    | cons q qs => simp [HasPrefix] at h
  | cons c cs ih =>
    cases p with
    | nil => rfl
    | cons q qs =>
      simp only [HasPrefix, Bool.and_eq_true] at h
      simp only [List.cons_append, HasPrefix, Bool.and_eq_true]
      exact ⟨h.1, ih qs h.2⟩

theorem Contains_append (s p t : Str) (h : Contains s p = true) :
    Contains (s ++ t) p = true := by
  induction s with
  | nil =>
    have hp : p = [] := by
      cases p with
      | nil => rfl
      | cons q qs => simp [Contains, HasPrefix] at h
    subst hp
    cases t <;> simp [Contains, HasPrefix]
  | cons c cs ih =>
    simp only [Contains, Bool.or_eq_true] at h
    simp only [List.cons_append, Contains, Bool.or_eq_true]
    rcases h with h | h
    · exact Or.inl (HasPrefix_append (c :: cs) p t h)
    · exact Or.inr (ih h)

/-- Not found on the content and delete endpoints: for every non-empty id whose
metadata does not load, in particular one without a metadata record, `GetFile`
and `DeleteFile` answer 404. -/
theorem GetFile_DeleteFile_not_found (fs : FileStorage) (env : Faults) (disk : Disk)
    (fileID : Str) (hid : fileID ≠ [])
    (hload : ∀ m, fs.loadMetadata env disk fileID ≠ .ok m) :
    Handler.GetFile fs env disk (str "GET") fileID = 404 ∧
    (Handler.DeleteFile fs env disk (str "DELETE") fileID).1 = 404 := by
  have hc : ∀ t : Str, Contains (str "metadata not found: " ++ t) (str "not found") = true :=
    fun t => Contains_append _ _ t (by decide)
  cases hl : fs.loadMetadata env disk fileID with
  | ok m => exact absurd hl (hload m)
  | error e =>
    simp [Handler.GetFile, Handler.DeleteFile, FileStorage.Retrieve, FileStorage.Delete, hl,
      hid, Errorf, GoError.Error, hc]

/-- C5 fails on the code for the info endpoint: for the id "missing", which has
no metadata record, `GetMetadata` returns the error of `os.Open` unwrapped, its
text does not contain "not found", and `GetFileInfo` answers 500, while
`GetFile` and `DeleteFile` answer 404. -/
theorem GetFileInfo_missing_answers_500 :
    emptyDisk.metas (str "missing" ++ str ".json") = none ∧
    exampleStorage.GetMetadata noFaults emptyDisk (str "missing") =
      .error (.pathError (str "open") (str "/tmp/storage_data/metadata/missing.json") .ENOENT) ∧
    (GoError.pathError (str "open") (str "/tmp/storage_data/metadata/missing.json")
        Errno.ENOENT).Error =
      str "open /tmp/storage_data/metadata/missing.json: no such file or directory" ∧
    Handler.GetFileInfo exampleStorage noFaults emptyDisk (str "GET") (str "missing") = 500 ∧
    Handler.GetFile exampleStorage noFaults emptyDisk (str "GET") (str "missing") = 404 ∧
    (Handler.DeleteFile exampleStorage noFaults emptyDisk (str "DELETE") (str "missing")).1 =
      404 := by
  decide

/-! ## The blob path -/

/-- C7: for every name and content type the file name `Store` builds for the
blob, the generated id followed by the extension, contains no path separator
and is at least 36 bytes long (so it is neither "." nor ".."); and whatever
fails, `Store` changes no file of the base directory under another name. -/
theorem Store_blob_name_no_separator (fs : FileStorage) (env : Faults) (disk : Disk)
    (rand : Nat → Nat) (now : Nat) (content originalName contentType : Str) :
    Contains (FileStorage.storeFilename rand originalName contentType) (str "/") = false ∧
    (∀ b ∈ FileStorage.storeFilename rand originalName contentType,
      IsPathSeparator b = false) ∧
    36 ≤ (FileStorage.storeFilename rand originalName contentType).length ∧
    (∀ k, k ≠ FileStorage.storeFilename rand originalName contentType →
      (fs.Store env disk rand now content originalName contentType).2.blobs k =
        disk.blobs k) := by
  have hmem : 47 ∉ FileStorage.storeFilename rand originalName contentType := by
    intro h
    rcases List.mem_append.mp h with h | h
    · exact (uuidString_bounds _ _ h).1 rfl
    · exact storeExtension_no_separator _ _ h
  refine ⟨?_, ?_, ?_, ?_⟩
  · have e1 : str "/" = [47] := by decide
    rw [e1, ← Bool.not_eq_true, contains_singleton]
    exact hmem
  · intro b hb
    simp only [IsPathSeparator, beq_eq_false_iff_ne, ne_eq]
    intro h
    exact hmem (h ▸ hb)
  · simp only [FileStorage.storeFilename, List.length_append,
      uuidString_length _ (uuidNew_length rand)]
    omega
  · intro k hk
    simp only [FileStorage.storeFilename] at hk
    simp only [FileStorage.Store, osCreateBlob, fileWriteBlob, FileStorage.saveMetadata,
      osRemoveBlob]
    cases env.create
      (.blob (uuidString (uuidNew rand) ++ FileStorage.storeExtension originalName contentType))
    case some e => rfl
    cases env.write
      (.blob (uuidString (uuidNew rand) ++ FileStorage.storeExtension originalName contentType))
    case some e =>
      cases env.remove
        (.blob (uuidString (uuidNew rand) ++
          FileStorage.storeExtension originalName contentType)) <;>
        simp [Disk.setBlob, hk]
    cases env.create (.metadata (uuidString (uuidNew rand) ++ str ".json"))
    case some e =>
      cases env.remove
        (.blob (uuidString (uuidNew rand) ++
          FileStorage.storeExtension originalName contentType)) <;>
        simp [Disk.setBlob, hk]
    cases env.write (.metadata (uuidString (uuidNew rand) ++ str ".json"))
    case some e =>
      cases env.remove
        (.blob (uuidString (uuidNew rand) ++
          FileStorage.storeExtension originalName contentType)) <;>
        by_cases hw : env.written (.metadata (uuidString (uuidNew rand) ++ str ".json")) = 0 <;>
        simp [Disk.setBlob, Disk.setMeta, hk, hw]
    simp [Disk.setBlob, Disk.setMeta, hk]

/-! ## Delete -/

/-- A metadata record that loads is a decodable document on disk, opened and
read without failure. -/
theorem loadMetadata_ok_inv (fs : FileStorage) (env : Faults) (disk : Disk) (fileID : Str)
    (m : FileMetadata) (h : fs.loadMetadata env disk fileID = .ok m) :
    disk.metas (fileID ++ str ".json") = some (.document m) := by
  simp only [FileStorage.loadMetadata] at h
  cases h1 : env.openFile (.metadata (fileID ++ str ".json"))
  case some e => simp [h1] at h
  cases h2 : disk.metas (fileID ++ str ".json")
  case none => simp [h1, h2] at h
  rename_i file
  cases h3 : env.read (.metadata (fileID ++ str ".json"))
  case some e => simp [h1, h2, h3] at h
  cases file with
  | undecodable err => simp [h1, h2, h3] at h
  | document md =>
    simp only [h1, h2, h3, Except.ok.injEq] at h
    rw [h]

/-- `Delete` of an id whose metadata does not load returns the not-found error
and leaves the disk as it is. -/
theorem Delete_of_loadMetadata_error (fs : FileStorage) (env : Faults) (disk : Disk)
    (fileID : Str) (e : GoError) (h : fs.loadMetadata env disk fileID = .error e) :
    fs.Delete env disk fileID =
      (some (.errorString (str "metadata not found: " ++ fileID)), disk) := by
  simp [FileStorage.Delete, h, Errorf]

/-- On a filesystem without failures, `Delete` of an id whose metadata loads
returns no error and leaves no metadata file for the id, and no blob under the
id and the recorded extension. -/
theorem Delete_noFaults_of_loadMetadata_ok (fs : FileStorage) (disk : Disk) (fileID : Str)
    (m : FileMetadata) (h : fs.loadMetadata noFaults disk fileID = .ok m) :
    (fs.Delete noFaults disk fileID).1 = none ∧
    (fs.Delete noFaults disk fileID).2.metas (fileID ++ str ".json") = none ∧
    (fs.Delete noFaults disk fileID).2.blobs (fileID ++ m.Extension) = none := by
  have hm := loadMetadata_ok_inv fs noFaults disk fileID m h
  cases hb : disk.blobs (fileID ++ m.Extension) with
  | none =>
    simp only [FileStorage.Delete, h]
    simp [osRemoveBlob, osRemoveMeta, noFaults, hb, hm, IsNotExist, Disk.setMeta]
  | some content =>
    simp only [FileStorage.Delete, h]
    simp [osRemoveBlob, osRemoveMeta, noFaults, hb, hm, IsNotExist, Disk.setMeta,
      Disk.setBlob]

/-- A successful `Store` found no failure at creating the blob. -/
theorem Store_ok_create (fs : FileStorage) (env : Faults) (disk d : Disk) (rand : Nat → Nat)
    (now : Nat) (content originalName contentType : Str) (m : FileMetadata)
    (h : fs.Store env disk rand now content originalName contentType = (.ok m, d)) :
    env.create (.blob (FileStorage.storeFilename rand originalName contentType)) = none := by
  simp only [FileStorage.Store, osCreateBlob] at h
  simp only [FileStorage.storeFilename]
  cases h1 : env.create
      (.blob (uuidString (uuidNew rand) ++ FileStorage.storeExtension originalName contentType))
  case some e => simp [h1] at h
  rfl

/-- Delete after store for a stable extension: after a successful `Store`
whose extension is unchanged by the JSON coercion, when opening and reading the
metadata file and removing the two files do not fail, `Delete` of the returned
id returns no error and leaves neither file, and a second `Delete` fails with
"metadata not found: " followed by the id and leaves the disk as it is. -/
theorem Delete_after_Store_of_stable_extension (fs : FileStorage) (env : Faults)
    (disk d : Disk) (rand : Nat → Nat) (now : Nat) (content originalName contentType : Str)
    (m : FileMetadata)
    (hS : fs.Store env disk rand now content originalName contentType = (.ok m, d))
    (hext : jsonString (FileStorage.storeExtension originalName contentType) =
      FileStorage.storeExtension originalName contentType)
    (hopen : env.openFile (.metadata (uuidString (uuidNew rand) ++ str ".json")) = none)
    (hread : env.read (.metadata (uuidString (uuidNew rand) ++ str ".json")) = none)
    (hrb : env.remove
      (.blob (FileStorage.storeFilename rand originalName contentType)) = none)
    (hrm : env.remove (.metadata (uuidString (uuidNew rand) ++ str ".json")) = none) :
    m.ID = uuidString (uuidNew rand) ∧
    (fs.Delete env d m.ID).1 = none ∧
    (fs.Delete env d m.ID).2.metas (m.ID ++ str ".json") = none ∧
    (fs.Delete env d m.ID).2.blobs
      (FileStorage.storeFilename rand originalName contentType) = none ∧
    fs.Delete env (fs.Delete env d m.ID).2 m.ID =
      (some (.errorString (str "metadata not found: " ++ m.ID)), (fs.Delete env d m.ID).2) := by
  obtain ⟨hm, hb, hmeta⟩ := Store_ok_inv fs env disk d rand now content originalName
    contentType m hS
  have hid : m.ID = uuidString (uuidNew rand) := by rw [hm]; rfl
  rw [hid]
  simp only [FileStorage.storeFilename] at hrb hb
  have hload : fs.loadMetadata env d (uuidString (uuidNew rand)) =
      .ok (jsonFileMetadata m) := by
    simp [FileStorage.loadMetadata, hopen, hread, hmeta]
  have hje : (jsonFileMetadata m).Extension =
      FileStorage.storeExtension originalName contentType := by
    rw [hm]
    simpa [jsonFileMetadata, FileStorage.storeMetadata] using hext
  have hdel : fs.Delete env d (uuidString (uuidNew rand)) =
      (none, (d.setBlob (uuidString (uuidNew rand) ++
        FileStorage.storeExtension originalName contentType) none).setMeta
          (uuidString (uuidNew rand) ++ str ".json") none) := by
    simp only [FileStorage.Delete, hload, hje]
    simp [osRemoveBlob, osRemoveMeta, hrb, hrm, hb, hmeta, IsNotExist, Disk.setBlob,
      Disk.setMeta]
  refine ⟨rfl, ?_, ?_, ?_, ?_⟩
  · rw [hdel]
  · rw [hdel]; simp [Disk.setMeta]
  · rw [hdel]; simp [Disk.setMeta, Disk.setBlob, FileStorage.storeFilename]
  · rw [hdel]
    apply Delete_of_loadMetadata_error fs env _ _
      (match env.openFile (.metadata (uuidString (uuidNew rand) ++ str ".json")) with
        | some e => .pathError (str "open") (fs.getMetadataPath (uuidString (uuidNew rand))) e
        | none => .pathError (str "open") (fs.getMetadataPath (uuidString (uuidNew rand)))
            .ENOENT)
    simp [FileStorage.loadMetadata, hopen, Disk.setMeta]

/-- Delete after store under the limit on file names: on a filesystem whose
only failure is that limit, after a successful `Store` with a stable extension,
the first `Delete` of the returned id returns no error and the second fails
with the not-found error. -/
theorem Delete_after_Store_nameMax (fs : FileStorage) (disk d : Disk) (rand : Nat → Nat)
    (now : Nat) (content originalName contentType : Str) (m : FileMetadata)
    (hS : fs.Store nameMax disk rand now content originalName contentType = (.ok m, d))
    (hext : jsonString (FileStorage.storeExtension originalName contentType) =
      FileStorage.storeExtension originalName contentType) :
    (fs.Delete nameMax d m.ID).1 = none ∧
    fs.Delete nameMax (fs.Delete nameMax d m.ID).2 m.ID =
      (some (.errorString (str "metadata not found: " ++ m.ID)),
        (fs.Delete nameMax d m.ID).2) := by
  have hc := Store_ok_create fs nameMax disk d rand now content originalName contentType m hS
  have hlen : (uuidString (uuidNew rand) ++ str ".json").length = 41 := by
    rw [List.length_append, uuidString_length _ (uuidNew_length rand)]
    rfl
  have hopen : nameMax.openFile (.metadata (uuidString (uuidNew rand) ++ str ".json")) =
      none := by
    simp only [nameMax, nameTooLong, hlen]
    rfl
  have hread : nameMax.read (.metadata (uuidString (uuidNew rand) ++ str ".json")) = none :=
    rfl
  have hrb : nameMax.remove
      (.blob (FileStorage.storeFilename rand originalName contentType)) = none := by
    simp only [nameMax] at hc ⊢
    exact hc
  have hrm : nameMax.remove (.metadata (uuidString (uuidNew rand) ++ str ".json")) = none := by
    simp only [nameMax, nameTooLong, hlen]
    rfl
  have h := Delete_after_Store_of_stable_extension fs nameMax disk d rand now content
    originalName contentType m hS hext hopen hread hrb hrm
  exact ⟨h.2.1, h.2.2.2.2⟩

/-- Delete of an unknown id: for an id without a path separator and without a
metadata record, `Delete` fails with the not-found error and leaves the disk as
it is, whatever the environment, so it does every time. -/
theorem Delete_of_missing_record (fs : FileStorage) (env : Faults) (disk : Disk)
    (fileID : Str) (_hsep : 47 ∉ fileID)
    (hnone : disk.metas (fileID ++ str ".json") = none) :
    fs.Delete env disk fileID =
      (some (.errorString (str "metadata not found: " ++ fileID)), disk) := by
  cases ho : env.openFile (.metadata (fileID ++ str ".json")) with
  | some e =>
    apply Delete_of_loadMetadata_error fs env disk fileID
      (.pathError (str "open") (fs.getMetadataPath fileID) e)
    simp [FileStorage.loadMetadata, ho]
  | none =>
    apply Delete_of_loadMetadata_error fs env disk fileID
      (.pathError (str "open") (fs.getMetadataPath fileID) .ENOENT)
    simp [FileStorage.loadMetadata, ho, hnone]

set_option maxRecDepth 20000 in
/-- C11 fails on the code: on a filesystem whose only failure is the limit of
255 bytes on a file name, storing under the name "a." followed by 85 bytes FF,
with no content type, succeeds (the blob name has 122 bytes); the first `Delete`
of the returned id then fails with "failed to delete file ... file name too
long", the extension read back from the metadata having 256 bytes, and the
metadata file and the blob stay. -/
theorem Delete_fails_after_Store_long_suffix :
    (exampleStorage.Store nameMax emptyDisk zeroRand 0 [1, 2, 3] longSuffixName []).1 =
      .ok { ID := zeroID, OriginalName := longSuffixName, ContentType := [], Size := 3,
            Extension := 46 :: List.replicate 85 255, CreatedAt := 0, UpdatedAt := 0 } ∧
    (exampleStorage.Delete nameMax
        (exampleStorage.Store nameMax emptyDisk zeroRand 0 [1, 2, 3] longSuffixName []).2
        zeroID).1 =
      some (.errorString (str "failed to delete file: remove /tmp/storage_data/" ++ zeroID ++
        46 :: (List.replicate 85 [0xEF, 0xBF, 0xBD]).flatten ++ str ": file name too long")) ∧
    ((exampleStorage.Delete nameMax
        (exampleStorage.Store nameMax emptyDisk zeroRand 0 [1, 2, 3] longSuffixName []).2
        zeroID).2.metas (zeroID ++ str ".json")).isSome = true ∧
    (exampleStorage.Delete nameMax
        (exampleStorage.Store nameMax emptyDisk zeroRand 0 [1, 2, 3] longSuffixName []).2
        zeroID).2.blobs (zeroID ++ 46 :: List.replicate 85 255) = some [1, 2, 3] := by
  decide

/-- When removing the blob is denied, `Delete` of an id whose metadata is on
disk answers "failed to delete file" and the metadata file stays. -/
theorem Delete_blob_remove_denied :
    (exampleStorage.Delete blobRemoveDenied metadataOnlyDisk zeroID).1 =
      some (.errorString (str ("failed to delete file: remove /tmp/storage_data/" ++
        "00000000-0000-4000-8000-000000000000.png: permission denied"))) ∧
    ((exampleStorage.Delete blobRemoveDenied metadataOnlyDisk zeroID).2.metas
      (zeroID ++ str ".json")).isSome = true := by
  decide

/-! ## The metadata `Store` builds -/

/-- C13: when `Store` succeeds the returned metadata has the generated
identifier as ID, the sanitized name, the content type as given, the number of
bytes of the content as size, the resolved extension, under which the blob was
written, and equal creation and update times. -/
theorem Store_metadata_fields (fs : FileStorage) (env : Faults) (disk d : Disk)
    (rand : Nat → Nat) (now : Nat) (content originalName contentType : Str)
    (m : FileMetadata)
    (h : fs.Store env disk rand now content originalName contentType = (.ok m, d)) :
    m.ID = uuidString (uuidNew rand) ∧
    m.OriginalName = SanitizeFileName originalName ∧
    m.ContentType = contentType ∧
    m.Size = (content.length : Int) ∧
    m.Extension = FileStorage.storeExtension originalName contentType ∧
    d.blobs (m.ID ++ m.Extension) = some content ∧
    m.CreatedAt = m.UpdatedAt := by
  obtain ⟨hm, hb, -⟩ := Store_ok_inv fs env disk d rand now content originalName contentType m h
  subst hm
  refine ⟨rfl, rfl, rfl, rfl, rfl, ?_, rfl⟩
  rw [hb]
  simp [FileStorage.storeMetadata, FileStorage.storeFilename]

/-- C13 at a content type that carries parameters: it is kept as given, and
the extension is the one of its first part. -/
theorem Store_metadata_fields_witness :
    exampleStorage.Store noFaults emptyDisk zeroRand 5 [1, 2, 3] (str "../index.html")
        (str "text/html; charset=utf-8") =
      (.ok { ID := zeroID, OriginalName := str "__index.html",
             ContentType := str "text/html; charset=utf-8", Size := 3,
             Extension := str ".html", CreatedAt := 5, UpdatedAt := 5 },
        (exampleStorage.Store noFaults emptyDisk zeroRand 5 [1, 2, 3] (str "../index.html")
          (str "text/html; charset=utf-8")).2) ∧
    zeroID = uuidString (uuidNew zeroRand) ∧
    str "__index.html" = SanitizeFileName (str "../index.html") ∧
    (exampleStorage.Store noFaults emptyDisk zeroRand 5 [1, 2, 3] (str "../index.html")
        (str "text/html; charset=utf-8")).2.blobs (zeroID ++ str ".html") = some [1, 2, 3] :=
  have h := Store_metadata_fields exampleStorage noFaults emptyDisk
    (exampleStorage.Store noFaults emptyDisk zeroRand 5 [1, 2, 3] (str "../index.html")
      (str "text/html; charset=utf-8")).2
    zeroRand 5 [1, 2, 3] (str "../index.html") (str "text/html; charset=utf-8")
    { ID := zeroID, OriginalName := str "__index.html",
      ContentType := str "text/html; charset=utf-8", Size := 3,
      Extension := str ".html", CreatedAt := 5, UpdatedAt := 5 }
    (Prod.ext (by decide) rfl)
  ⟨Prod.ext (by decide) rfl, h.1, h.2.1, h.2.2.2.2.2.1⟩

/-! ## The content-type table -/

theorem Split_ne_nil (s : Str) (sep : Nat) : Split s sep ≠ [] := by
  induction s with
  | nil => simp [Split]
  | cons c cs ih =>
    simp only [Split]
    split
    · simp
    · split <;> simp

/-- The first element of `Split` is the text before the first separator. -/
theorem Split_head (s : Str) (sep : Nat) :
    (Split s sep).headD [] = s.takeWhile (fun c => c != sep) := by
  induction s with
  | nil => rfl
  | cons c cs ih =>
    simp only [Split, List.takeWhile_cons]
    by_cases hc : c = sep
    · simp [hc]
    · have hne : (c != sep) = true := by simpa using hc
      rw [if_neg hc, hne, if_pos rfl, ← ih]
      cases hS : Split cs sep with
      | nil => exact absurd hS (Split_ne_nil cs sep)
      | cons head tail => rfl

theorem takeWhile_append_sep (part rest : Str) (sep : Nat) (h : sep ∉ part) :
    (part ++ sep :: rest).takeWhile (fun c => c != sep) = part := by
  induction part with
  | nil => simp
  | cons c cs ih =>
    have hc : c ≠ sep := fun e => h (e ▸ List.mem_cons_self _ _)
    have hcs : sep ∉ cs := fun e => h (List.mem_cons_of_mem _ e)
    have hne : (c != sep) = true := by simpa using hc
    simp only [List.cons_append, List.takeWhile_cons, hne, if_true, ih hcs]

theorem takeWhile_no_sep (s : Str) (sep : Nat) (h : sep ∉ s) :
    s.takeWhile (fun c => c != sep) = s := by
  induction s with
  | nil => rfl
  | cons c cs ih =>
    have hc : c ≠ sep := fun e => h (e ▸ List.mem_cons_self _ _)
    have hcs : sep ∉ cs := fun e => h (List.mem_cons_of_mem _ e)
    have hne : (c != sep) = true := by simpa using hc
    simp only [List.takeWhile_cons, hne, if_true, ih hcs]

theorem takeWhile_append_sep_any (s rest : Str) (sep : Nat) :
    (s ++ sep :: rest).takeWhile (fun c => c != sep) = s.takeWhile (fun c => c != sep) := by
  induction s with
  | nil => simp
  | cons c cs ih =>
    simp only [List.cons_append, List.takeWhile_cons, ih]

/-- Every key of the table is found with its own extension, and no key
contains a semicolon. -/
theorem mimeToExt_keys :
    ∀ p ∈ mimeToExt, mapLookup p.1 mimeToExt = some p.2 ∧ 59 ∉ p.1 := by
  decide

theorem mapLookup_none (key : Str) (table : List (Str × Str))
    (h : ∀ ext, (key, ext) ∉ table) : mapLookup key table = none := by
  induction table with
  | nil => rfl
  | cons p rest ih =>
    obtain ⟨k, v⟩ := p
    simp only [mapLookup]
    split
    · rename_i hk
      exact absurd (hk ▸ List.mem_cons_self _ _) (h v)
    · exact ih fun ext hmem => h ext (List.mem_cons_of_mem _ hmem)

/-- `GetExtensionFromContentType` looks up the text before the first semicolon. -/
theorem GetExtensionFromContentType_eq (s : Str) :
    GetExtensionFromContentType s =
      match mapLookup (s.takeWhile (fun c => c != 59)) mimeToExt with
      | some ext => ext
      | none => str ".bin" := by
  simp only [GetExtensionFromContentType, Split_head]

/-- C14: `GetExtensionFromContentType` is defined on every string (the index
into the result of `Split` is in range) and depends only on the part before the
first semicolon: it is the extension of the table when that part is a key, and
".bin" when it is not; text appended after a semicolon never changes the
result; and the result is never empty. -/
theorem GetExtensionFromContentType_total (s : Str) :
    Split s 59 ≠ [] ∧
    (∀ part rest, 59 ∉ part → (s = part ∨ s = part ++ 59 :: rest) →
      s.takeWhile (fun c => c != 59) = part) ∧
    (∀ ext, (s.takeWhile (fun c => c != 59), ext) ∈ mimeToExt →
      GetExtensionFromContentType s = ext) ∧
    ((∀ ext, (s.takeWhile (fun c => c != 59), ext) ∉ mimeToExt) →
      GetExtensionFromContentType s = str ".bin") ∧
    (∀ params, GetExtensionFromContentType (s ++ 59 :: params) =
      GetExtensionFromContentType s) ∧
    GetExtensionFromContentType s ≠ [] ∧
    GetExtensionFromContentType (str "text/html; charset=utf-8") = str ".html" ∧
    GetExtensionFromContentType (str "application/x-unknown-made-up") = str ".bin" := by
  refine ⟨Split_ne_nil s 59, ?_, ?_, ?_, ?_, (GetExtensionFromContentType_bytes s).1,
    by decide, by decide⟩
  · intro part rest hpart hs
    rcases hs with hs | hs
    · rw [hs]; exact takeWhile_no_sep part 59 hpart
    · rw [hs]; exact takeWhile_append_sep part rest 59 hpart
  · intro ext hmem
    rw [GetExtensionFromContentType_eq, (mimeToExt_keys _ hmem).1]
  · intro hmiss
    rw [GetExtensionFromContentType_eq, mapLookup_none _ _ hmiss]
  · intro params
    rw [GetExtensionFromContentType_eq, GetExtensionFromContentType_eq,
      takeWhile_append_sep_any]

end DVFS
